import Mathlib

/-!
Shallow embedding of the journal engine of `src/src/journal.cc` (ledger).

The journal owns an account tree, lists of transactions (plain, automated,
periodic), a registry of known entities (accounts, commodities, metadata
tags) with per-kind `fixed` flags, a checksum registry keyed by the value
of the reserved "UUID" metadata tag, and the machinery of
`register_account` / `register_commodity` / `register_metadata`,
`add_xact` / `remove_xact`, `read`, `has_xdata` / `clear_xdata`.

External collaborators (the parser, `xact_t::finalize`, the automated
transactions' `extend_xact`, the expression evaluator) are taken as
function parameters.  C++ exceptions are modelled by an `Option Err`
(respectively `Except Err`) component of the result; warnings are
collected in a list.  Pointer identity of transactions is modelled by a
numeric `id` field.
-/

namespace LedgerJournal

/-- The journal-wide checking style (`CHECK_PERMISSIVE` / `CHECK_WARNING` /
`CHECK_ERROR` of `journal.h`). -/
inductive CheckingStyle where
  | permissive
  | warning
  | error
deriving DecidableEq

/-- The clearing state of an item (`item_t::UNCLEARED` / `PENDING` /
`CLEARED`). -/
inductive ItemState where
  | uncleared
  | pending
  | cleared
deriving DecidableEq

/-- A metadata value: `none` stands for `NULL_VALUE`, `some s` for a present
`value_t` rendered as a string. -/
abbrev Value := Option String

/-- A posting.  Only the fields this engine reads are kept: the clearing
state, the metadata map (association list, iteration order), and the payee
of the owning transaction (the C++ code reads it as `post->xact->payee`). -/
structure Post where
  state : ItemState
  metadata : List (String × Value)
  xactPayee : String
deriving DecidableEq

/-- The externally mutable payload of a transaction: everything
`finalize` and automated-transaction extension may rewrite.  The numeric
identity and the journal back-reference stay outside, because they model
the C++ object pointer and a field only this engine assigns. -/
structure XCore where
  payee : String
  state : ItemState
  metadata : List (String × Value)
  posts : List Post
deriving DecidableEq

/-- A transaction: identity (the pointer), the `ITEM_TEMP` flag, the
transient-cache flag (`has_xdata()` on the item), the journal
back-reference (`xact->journal != NULL`), and the payload. -/
structure Xact where
  id : Nat
  temp : Bool
  xdata : Bool
  journal : Bool
  core : XCore
deriving DecidableEq

/-- An automated transaction: its (external) extension action plus the
`ITEM_TEMP` and xdata flags read by the lifecycle sweeps. -/
structure AutoXact where
  extendFn : XCore → XCore
  temp : Bool
  xdata : Bool

/-- A periodic transaction; only its lifecycle flags matter to this core. -/
structure PeriodXact where
  temp : Bool
  xdata : Bool
deriving DecidableEq

/-- A `mask_t` regular expression, kept abstract as its matching function. -/
structure Mask where
  isMatch : String → Bool

/-- The kind of a registered metadata check (`expr_t::EXPR_ASSERTION` or
`expr_t::EXPR_CHECK`). -/
inductive CheckKind where
  | assertion
  | warning
deriving DecidableEq

/-- One registered metadata check expression: its boolean evaluation
against the bound value (the expression evaluator is external), its kind,
and its printed source text (used in messages). -/
structure Check where
  eval : Value → Bool
  kind : CheckKind
  src : String

/-- Modelled from the spec: `account_t` lives in `account.cc`, which is not
part of the given source.  The account tree is flattened to the list of its
nodes; each node keeps its full path as `name`, its `ACCOUNT_KNOWN` flag,
and its xdata flag.  The "Unknown" sentinel is the account whose name is
`"Unknown"`. -/
structure AccountR where
  name : String
  known : Bool
  xdata : Bool
deriving DecidableEq

/-- Fatal, propagating errors (C++ exceptions). -/
inductive Err where
  | unknownAccount (name : String)
  | unknownCommodity (name : String)
  | unknownTag (key : String)
  | metadataAssertion (key : String) (value : Value) (src : String)
  | badGet
  | nullDeref
  | noDefaultScope
deriving DecidableEq

/-- Non-fatal advisories emitted by `warning_`. -/
inductive Warn where
  | unknownAccount (loc name : String)
  | unknownCommodity (loc name : String)
  | unknownTag (loc key : String)
  | metadataCheck (loc key : String) (value : Value) (src : String)
deriving DecidableEq

/-- The observation context `variant<int, xact_t *, post_t *>`: a bare
declaration, or a transaction / posting of which only the clearing state
is read. -/
inductive Context where
  | declaration
  | inXact (st : ItemState)
  | inPost (st : ItemState)
deriving DecidableEq

/-- The journal state: the fields of `journal_t` this engine reads or
writes. -/
structure Journal where
  accounts : List AccountR
  accountAliases : List (String × String)
  payeesForUnknownAccounts : List (Mask × String)
  knownTags : List String
  tagCheckExprs : List (String × Check)
  checksumMap : List (String × Nat)
  xacts : List Xact
  autoXacts : List AutoXact
  periodXacts : List PeriodXact
  fixedAccounts : Bool
  fixedCommodities : Bool
  fixedMetadata : Bool
  forceChecking : Bool
  checkingStyle : CheckingStyle

/-- Modelled from the spec: `item_t::get_tag` lives outside the given
source; a transaction "carries a UUID tag" when its metadata map has the
key with a present value. -/
def getTag (c : XCore) (key : String) : Option String :=
  match c.metadata.find? (fun p => p.1 == key) with
  | some p => p.2
  | none => none

/-- Alias lookup of `register_account`: consulted only when the alias
table is non-empty; a miss leaves `result` null. -/
def lookupAlias (j : Journal) (name : String) : Option String :=
  if j.accountAliases.length > 0 then
    (j.accountAliases.find? (fun p => p.1 == name)).map (fun p => p.2)
  else none

/-- Modelled from the spec: `account_t::find_account` with auto-creation
(`account.cc` is not part of the given source) — return the tree extended
with a fresh, unknown account when the path is missing. -/
def findAccountCreate (accts : List AccountR) (name : String) : List AccountR :=
  if accts.any (fun a => a.name == name) then accts
  else accts ++ [⟨name, false, false⟩]

/-- Look an account up by full name. -/
def getAccount (accts : List AccountR) (name : String) : Option AccountR :=
  accts.find? (fun a => a.name == name)

/-- Whether the account carries the `ACCOUNT_KNOWN` flag. -/
def isKnownAccount (accts : List AccountR) (name : String) : Bool :=
  ((getAccount accts name).map (fun a => a.known)).getD false

/-- Set the `ACCOUNT_KNOWN` flag on the named account. -/
def markAccountKnown (accts : List AccountR) (name : String) : List AccountR :=
  accts.map (fun a => if a.name == name then { a with known := true } else a)

/-- The payee-routing step of `register_account`: when the resolved account
is the "Unknown" sentinel, scan `payees_for_unknown_accounts` in order.
Each iteration evaluates `post->xact->payee` with no null guard, so a null
`post` with a non-empty table dereferences null. -/
def routeUnknown (routes : List (Mask × String)) (rname : String)
    (post : Option Post) : Except Err String :=
  if rname == "Unknown" then
    match routes, post with
    | [], _ => .ok rname
    | _ :: _, none => .error .nullDeref
    | ms, some p =>
      match ms.find? (fun m => m.1.isMatch p.xactPayee) with
      | some m => .ok m.2
      | none => .ok rname
  else .ok rname

/-- Translation of `journal_t::register_account`: alias lookup, tree lookup
with auto-creation, Unknown-account payee routing, then the known-entity
decision rule for kind ACCOUNT. -/
def register_account (j : Journal) (name : String) (post : Option Post)
    (location : String) : Journal × List Warn × Except Err String :=
  let resolved : List AccountR × String :=
    match lookupAlias j name with
    | some a => (j.accounts, a)
    | none => (findAccountCreate j.accounts name, name)
  let accts := resolved.1
  match routeUnknown j.payeesForUnknownAccounts resolved.2 post with
  | .error e => ({ j with accounts := accts }, [], .error e)
  | .ok rname =>
    if isKnownAccount accts rname then
      ({ j with accounts := accts }, [], .ok rname)
    else
      match post with
      | none =>
        ({ j with
            accounts := markAccountKnown accts rname,
            fixedAccounts := if j.forceChecking then true else j.fixedAccounts },
         [], .ok rname)
      | some p =>
        if ¬ j.fixedAccounts ∧ p.state ≠ .uncleared then
          ({ j with accounts := markAccountKnown accts rname }, [], .ok rname)
        else if j.checkingStyle = .warning then
          ({ j with accounts := accts }, [Warn.unknownAccount location rname], .ok rname)
        else if j.checkingStyle = .error then
          ({ j with accounts := accts }, [], .error (.unknownAccount rname))
        else
          ({ j with accounts := accts }, [], .ok rname)

/-- Translation of `journal_t::register_commodity`.  The `COMMODITY_KNOWN`
flag lives on the commodity object (the pool), so it is threaded as a
boolean alongside the journal. -/
def register_commodity (j : Journal) (known : Bool) (comm : String)
    (context : Context) (location : String) :
    Journal × Bool × List Warn × Option Err :=
  if known then (j, known, [], none)
  else
    match context with
    | .declaration =>
      ({ j with fixedCommodities := if j.forceChecking then true else j.fixedCommodities },
       true, [], none)
    | .inXact st | .inPost st =>
      if ¬ j.fixedCommodities ∧ st ≠ .uncleared then (j, true, [], none)
      else if j.checkingStyle = .warning then
        (j, false, [Warn.unknownCommodity location comm], none)
      else if j.checkingStyle = .error then
        (j, false, [], some (.unknownCommodity comm))
      else (j, false, [], none)

/-- The loop body of `check_metadata` over the checks registered for one
key: a failed ASSERTION throws at once; a failed WARNING emits an advisory
and continues with the next check. -/
def runChecks (checks : List Check) (key : String) (value : Value)
    (location : String) : List Warn × Option Err :=
  match checks with
  | [] => ([], none)
  | c :: rest =>
    if c.eval value then runChecks rest key value location
    else
      match c.kind with
      | .assertion => ([], some (.metadataAssertion key value c.src))
      | .warning =>
        let r := runChecks rest key value location
        (Warn.metadataCheck location key value c.src :: r.1, r.2)

/-- The checks registered for a key, in insertion order
(`tag_check_exprs.equal_range`). -/
def checksFor (j : Journal) (key : String) : List Check :=
  (j.tagCheckExprs.filter (fun p => p.1 == key)).map (fun p => p.2)

/-- Translation of the file-local `check_metadata`: iterate the checks for
the key.  Building the `value_scope_t` extracts a transaction or posting
from the context, so a declaration context with at least one registered
check throws `boost::bad_get`. -/
def check_metadata (j : Journal) (key : String) (value : Value)
    (context : Context) (location : String) : List Warn × Option Err :=
  match context, checksFor j key with
  | .declaration, _ :: _ => ([], some .badGet)
  | _, checks => runChecks checks key value location

/-- The known-tag step of `register_metadata` (the known-entity decision
rule for kind METADATA_TAG). -/
def register_metadata_step (j : Journal) (key : String) (context : Context)
    (location : String) : Journal × List Warn × Option Err :=
  if key ∈ j.knownTags then (j, [], none)
  else
    match context with
    | .declaration =>
      ({ j with
          fixedMetadata := if j.forceChecking then true else j.fixedMetadata,
          knownTags := key :: j.knownTags }, [], none)
    | .inXact st | .inPost st =>
      if ¬ j.fixedMetadata ∧ st ≠ .uncleared then
        ({ j with knownTags := key :: j.knownTags }, [], none)
      else if j.checkingStyle = .warning then
        (j, [Warn.unknownTag location key], none)
      else if j.checkingStyle = .error then
        (j, [], some (.unknownTag key))
      else (j, [], none)

/-- Translation of `journal_t::register_metadata`: the known-tag rule,
then — when the value is non-null and no exception was thrown —
`check_metadata`. -/
def register_metadata (j : Journal) (key : String) (value : Value)
    (context : Context) (location : String) :
    Journal × List Warn × Option Err :=
  match register_metadata_step j key context location with
  | (j1, w1, some e) => (j1, w1, some e)
  | (j1, w1, none) =>
    if value.isSome then
      let r := check_metadata j1 key value context location
      (j1, w1 ++ r.1, r.2)
    else (j1, w1, none)

/-- The loop of the file-local `check_all_metadata`: call
`register_metadata` on every (key, optional value) pair of an item's
metadata map, with location `""`; an exception aborts the loop. -/
def registerAllPairs (j : Journal) (pairs : List (String × Value))
    (context : Context) : Journal × List Warn × Option Err :=
  match pairs with
  | [] => (j, [], none)
  | (k, v) :: rest =>
    match register_metadata j k v context "" with
    | (j1, w1, some e) => (j1, w1, some e)
    | (j1, w1, none) =>
      let r := registerAllPairs j1 rest context
      (r.1, w1 ++ r.2.1, r.2.2)

/-- `check_all_metadata` applied to the transaction itself. -/
def check_all_metadata_xact (j : Journal) (c : XCore) :
    Journal × List Warn × Option Err :=
  registerAllPairs j c.metadata (.inXact c.state)

/-- `check_all_metadata` applied to one posting. -/
def check_all_metadata_post (j : Journal) (p : Post) :
    Journal × List Warn × Option Err :=
  registerAllPairs j p.metadata (.inPost p.state)

/-- The posting loop of `add_xact`: `check_all_metadata` on each posting in
order; an exception aborts the loop. -/
def check_posts_metadata (j : Journal) (ps : List Post) :
    Journal × List Warn × Option Err :=
  match ps with
  | [] => (j, [], none)
  | p :: rest =>
    match check_all_metadata_post j p with
    | (j1, w1, some e) => (j1, w1, some e)
    | (j1, w1, none) =>
      let r := check_posts_metadata j1 rest
      (r.1, w1 ++ r.2.1, r.2.2)

/-- The metadata-validation phase of `add_xact`: the transaction itself,
then each of its postings in order. -/
def metadataPhase (j : Journal) (c : XCore) :
    Journal × List Warn × Option Err :=
  match check_all_metadata_xact j c with
  | (j1, w1, some e) => (j1, w1, some e)
  | (j1, w1, none) =>
    let r := check_posts_metadata j1 c.posts
    (r.1, w1 ++ r.2.1, r.2.2)

/-- Translation of `journal_t::extend_xact`: apply every automated
transaction in registration order. -/
def extend_xact (j : Journal) (c : XCore) : XCore :=
  j.autoXacts.foldl (fun acc a => a.extendFn acc) c

/-- `std::map::insert` on the checksum registry: fails, leaving the map
untouched, when the key is already claimed. -/
def checksumInsert (m : List (String × Nat)) (key : String) (v : Nat) :
    List (String × Nat) × Bool :=
  if m.any (fun p => p.1 == key) then (m, false) else (m ++ [(key, v)], true)

/-- Lookup in the checksum registry. -/
def checksumLookup (m : List (String × Nat)) (key : String) : Option Nat :=
  (m.find? (fun p => p.1 == key)).map (fun p => p.2)

/-- Translation of `journal_t::add_xact`.  The external `finalize` is a
parameter on the transaction payload (`none` = failure).  Result: the new
journal, the transaction as left behind (back-reference included), the
warnings emitted, and either a thrown error or the boolean return value. -/
def add_xact (finalizeFn : XCore → Option XCore) (j : Journal) (x : Xact) :
    Journal × Xact × List Warn × Except Err Bool :=
  match finalizeFn x.core with
  | none => (j, { x with journal := false }, [], .ok false)
  | some c1 =>
    let c2 := extend_xact j c1
    let x2 : Xact := { x with journal := true, core := c2 }
    match metadataPhase j c2 with
    | (j1, w1, some e) => (j1, x2, w1, .error e)
    | (j1, w1, none) =>
      match getTag c2 "UUID" with
      | some u =>
        let ins := checksumInsert j1.checksumMap u x2.id
        if ins.2 then
          ({ j1 with checksumMap := ins.1, xacts := j1.xacts ++ [x2] },
           x2, w1, .ok true)
        else
          (j1, { x2 with journal := false }, w1, .ok false)
      | none =>
        ({ j1 with xacts := j1.xacts ++ [x2] }, x2, w1, .ok true)

/-- Translation of `journal_t::remove_xact`: linear scan by pointer
identity; when found, erase the first match and clear the back-reference. -/
def remove_xact (j : Journal) (x : Xact) : Journal × Xact × Bool :=
  if j.xacts.any (fun e => e.id == x.id) then
    ({ j with xacts := j.xacts.eraseP (fun e => e.id == x.id) },
     { x with journal := false }, true)
  else (j, x, false)

/-- Translation of `journal_t::has_xdata`: any transaction, automated or
periodic transaction, or account in the tree carries xdata.  The account
part (`master->has_xdata() || master->children_with_xdata()`) is modelled
from the spec over the flattened tree. -/
def has_xdata (j : Journal) : Bool :=
  j.xacts.any (fun x => x.xdata) || j.autoXacts.any (fun x => x.xdata) ||
    j.periodXacts.any (fun x => x.xdata) || j.accounts.any (fun a => a.xdata)

/-- Translation of `journal_t::clear_xdata`: clear xdata from every
transaction, automated and periodic transaction not flagged `ITEM_TEMP`,
and (modelled from the spec, recursively) from the whole account tree. -/
def clear_xdata (j : Journal) : Journal :=
  { j with
    xacts := j.xacts.map (fun x => if x.temp then x else { x with xdata := false }),
    autoXacts := j.autoXacts.map (fun x => if x.temp then x else { x with xdata := false }),
    periodXacts := j.periodXacts.map (fun x => if x.temp then x else { x with xdata := false }),
    accounts := j.accounts.map (fun a => { a with xdata := false }) }

/-- Translation of `journal_t::read` (stream overload).  The parser is a
parameter mutating the journal and either throwing or returning a count;
`scopeGiven` / `defaultScope` model the two null tests on the evaluation
scope.  The catch-all handler clears xdata and rethrows; the success path
clears xdata before returning the count. -/
def read (parse : Journal → Journal × Except Err Nat) (j : Journal)
    (scopeGiven : Bool) (defaultScope : Bool) : Journal × Except Err Nat :=
  if ¬ scopeGiven ∧ ¬ defaultScope then
    (clear_xdata j, .error .noDefaultScope)
  else
    match parse j with
    | (j1, .error e) => (clear_xdata j1, .error e)
    | (j1, .ok n) => (clear_xdata j1, .ok n)

/-! Concrete fixtures used by the witnesses. -/

/-- The journal as `journal_t::initialize` leaves it: empty tables, all
fixed flags off, permissive checking. -/
def emptyJournal : Journal where
  accounts := []
  accountAliases := []
  payeesForUnknownAccounts := []
  knownTags := []
  tagCheckExprs := []
  checksumMap := []
  xacts := []
  autoXacts := []
  periodXacts := []
  fixedAccounts := false
  fixedCommodities := false
  fixedMetadata := false
  forceChecking := false
  checkingStyle := .permissive

/-- A plain transaction with empty metadata and no postings. -/
def xact0 : Xact := ⟨0, false, false, false, ⟨"payee0", .uncleared, [], []⟩⟩

/-- A transaction flagged `ITEM_TEMP` that carries xdata. -/
def tempXdataXact : Xact := ⟨7, true, true, false, ⟨"payee7", .uncleared, [], []⟩⟩

/-- A journal holding one temporary transaction with xdata. -/
def journalC7 : Journal := { emptyJournal with xacts := [tempXdataXact] }

/-- An otherwise-empty journal whose checking style is ERROR. -/
def errJournal : Journal := { emptyJournal with checkingStyle := .error }

/-- A transaction carrying the metadata tag "UUID" with value "u1". -/
def uuidXact : Xact :=
  ⟨3, false, false, false, ⟨"pay", .uncleared, [("UUID", some "u1")], []⟩⟩

/-- A journal whose checksum registry already claims "u1" for
transaction 5. -/
def dupJournal : Journal := { emptyJournal with checksumMap := [("u1", 5)] }

/-- An otherwise-empty ERROR-style journal with accounts and commodities
fixed. -/
def fixedJournal : Journal :=
  { emptyJournal with
    checkingStyle := .error, fixedAccounts := true, fixedCommodities := true }

/-! Theorems. -/

/-- C5: when the external `finalize()` fails, `add_xact` clears the
transaction's journal back-reference, returns `false`, and the journal —
transaction list, checksum registry, knowledge sets, fixed flags, account
tree — is returned exactly as it was; extension and metadata validation
are not reached (the transaction's payload is untouched). -/
theorem add_xact_finalize_failure (finalizeFn : XCore → Option XCore)
    (j : Journal) (x : Xact) (hfin : finalizeFn x.core = none) :
    add_xact finalizeFn j x = (j, { x with journal := false }, [], .ok false) := by
  simp [add_xact, hfin]

theorem add_xact_finalize_failure_witness :
    (fun _ : XCore => (none : Option XCore)) xact0.core = none ∧
    add_xact (fun _ => none) emptyJournal xact0 =
      (emptyJournal, { xact0 with journal := false }, [], .ok false) :=
  ⟨rfl, add_xact_finalize_failure (fun _ => none) emptyJournal xact0 rfl⟩

/-- C8: `remove_xact` on a transaction not present (by identity) returns
`false` and leaves the journal untouched; on a present transaction it
removes exactly the first identity match, clears the back-reference and
returns `true`; in both cases the checksum registry is unchanged. -/
theorem remove_xact_spec (j : Journal) (x : Xact) :
    ((∀ e ∈ j.xacts, e.id ≠ x.id) → remove_xact j x = (j, x, false))
    ∧ (∀ pre e post, j.xacts = pre ++ e :: post → e.id = x.id →
        (∀ e' ∈ pre, e'.id ≠ x.id) →
        remove_xact j x = ({ j with xacts := pre ++ post },
                           { x with journal := false }, true))
    ∧ (remove_xact j x).1.checksumMap = j.checksumMap := by
  refine ⟨?_, ?_, ?_⟩
  · intro h
    have hany : j.xacts.any (fun e => e.id == x.id) = false := by
      simp only [List.any_eq_false]
      intro e he
      simpa using h e he
    simp [remove_xact, hany]
  · intro pre e post hsplit hid hpre
    have hany : j.xacts.any (fun e => e.id == x.id) = true := by
      rw [hsplit]
      simp [hid]
    have herase : j.xacts.eraseP (fun e => e.id == x.id) = pre ++ post := by
      rw [hsplit]
      rw [List.eraseP_append_right]
      · rw [List.eraseP_cons_of_pos]
        simp [hid]
      · intro b hb
        simpa using hpre b hb
    simp [remove_xact, hany, herase]
  · unfold remove_xact
    split <;> rfl

theorem remove_xact_spec_witness :
    ({ emptyJournal with xacts := [xact0] } : Journal).xacts = [] ++ xact0 :: []
    ∧ xact0.id = xact0.id
    ∧ remove_xact { emptyJournal with xacts := [xact0] } xact0 =
        ({ emptyJournal with xacts := ([] : List Xact) ++ [] },
         { xact0 with journal := false }, true) := by
  refine ⟨rfl, rfl, ?_⟩
  exact (remove_xact_spec { emptyJournal with xacts := [xact0] } xact0).2.1
    [] xact0 [] rfl rfl (by intro e he; simp at he)

/-- C9: with a null `post`, a resolved account named "Unknown" and a
non-empty payee routing table, `register_account` dereferences the null
posting (the loop reads `post->xact->payee` with no guard); with an empty
table, or a resolution away from "Unknown", the null-`post` (declaration)
call never fails. -/
theorem register_account_null_post_deref (j : Journal) (name location : String)
    (halias : lookupAlias j name = none) :
    (name = "Unknown" → j.payeesForUnknownAccounts ≠ [] →
      register_account j name none location =
        ({ j with accounts := findAccountCreate j.accounts name }, [],
         .error .nullDeref))
    ∧ (j.payeesForUnknownAccounts = [] ∨ name ≠ "Unknown" →
      (register_account j name none location).2.2 = .ok name) := by
  constructor
  · intro hn hroutes
    subst hn
    rcases hr : j.payeesForUnknownAccounts with _ | ⟨m, ms⟩
    · exact absurd hr hroutes
    · simp [register_account, halias, routeUnknown, hr]
  · intro hcase
    have hroute : routeUnknown j.payeesForUnknownAccounts name none = .ok name := by
      rcases hcase with hempty | hn
      · unfold routeUnknown
        split
        · rw [hempty]
        · rfl
      · unfold routeUnknown
        split
        · rename_i hb
          exact absurd (by simpa using hb) hn
        · rfl
    simp only [register_account, halias, hroute]
    split <;> simp

theorem register_account_null_post_deref_witness :
    lookupAlias { emptyJournal with
        payeesForUnknownAccounts := [(⟨fun _ => true⟩, "Expenses")] } "Unknown" = none ∧
    register_account { emptyJournal with
        payeesForUnknownAccounts := [(⟨fun _ => true⟩, "Expenses")] } "Unknown" none "loc" =
      ({ emptyJournal with
          payeesForUnknownAccounts := [(⟨fun _ => true⟩, "Expenses")],
          accounts := [⟨"Unknown", false, false⟩] }, [], .error .nullDeref) := by
  constructor
  · rfl
  · have h := (register_account_null_post_deref
      { emptyJournal with payeesForUnknownAccounts := [(⟨fun _ => true⟩, "Expenses")] }
      "Unknown" "loc" rfl).1 rfl (by simp)
    simpa [emptyJournal, findAccountCreate] using h

/-- C6: every exit path of `read` performs exactly one `clear_xdata` pass:
when the scope check fails the error propagates after one clear of the
pre-parse journal; when the parser throws the error propagates after one
clear of the parser-left journal; on success the count is returned after
one clear of the parser-left journal. -/
theorem read_clears_xdata_on_every_path (parse : Journal → Journal × Except Err Nat)
    (j : Journal) (scopeGiven defaultScope : Bool) :
    (scopeGiven = false → defaultScope = false →
      read parse j scopeGiven defaultScope = (clear_xdata j, .error .noDefaultScope))
    ∧ (∀ j1 e, (scopeGiven = true ∨ defaultScope = true) → parse j = (j1, .error e) →
      read parse j scopeGiven defaultScope = (clear_xdata j1, .error e))
    ∧ (∀ j1 n, (scopeGiven = true ∨ defaultScope = true) → parse j = (j1, .ok n) →
      read parse j scopeGiven defaultScope = (clear_xdata j1, .ok n)) := by
  refine ⟨?_, ?_, ?_⟩
  · intro h1 h2
    simp [read, h1, h2]
  · intro j1 e hs hp
    have hcond : ¬ (¬ scopeGiven = true ∧ ¬ defaultScope = true) := by
      rcases hs with h | h <;> simp [h]
    unfold read
    rw [if_neg hcond, hp]
  · intro j1 n hs hp
    have hcond : ¬ (¬ scopeGiven = true ∧ ¬ defaultScope = true) := by
      rcases hs with h | h <;> simp [h]
    unfold read
    rw [if_neg hcond, hp]

theorem read_clears_xdata_on_every_path_witness :
    (true = true ∨ false = true) ∧
    (fun jj : Journal => (jj, (.ok 2 : Except Err Nat))) journalC7 = (journalC7, .ok 2) ∧
    read (fun jj => (jj, .ok 2)) journalC7 true false =
      (clear_xdata journalC7, .ok 2) := by
  refine ⟨Or.inl rfl, rfl, ?_⟩
  exact (read_clears_xdata_on_every_path (fun jj => (jj, .ok 2)) journalC7 true false).2.2
    journalC7 2 (Or.inl rfl) rfl

/-- C7 counterexample: `clear_xdata` skips items flagged `ITEM_TEMP`, but
`has_xdata` inspects every item, so on a journal holding a temporary
transaction that carries xdata, `has_xdata` is still true after
`clear_xdata` — the claim as stated fails at `journalC7`. -/
theorem clear_xdata_counterexample :
    ¬ (∀ j : Journal, clear_xdata (clear_xdata j) = clear_xdata j ∧
        has_xdata (clear_xdata j) = false) := by
  intro h
  have ht : has_xdata (clear_xdata journalC7) = true := rfl
  rw [(h journalC7).2] at ht
  exact Bool.false_ne_true ht

/-- C7 (amended): `clear_xdata` is idempotent on every journal state, and
after a call `has_xdata` is false provided no `ITEM_TEMP`-flagged
transaction, automated transaction or periodic transaction carried xdata
(temporary items are exempt from the clearing sweep). -/
theorem clear_xdata_idem_and_clears (j : Journal) :
    clear_xdata (clear_xdata j) = clear_xdata j
    ∧ ((∀ x ∈ j.xacts, x.temp = true → x.xdata = false) →
       (∀ a ∈ j.autoXacts, a.temp = true → a.xdata = false) →
       (∀ p ∈ j.periodXacts, p.temp = true → p.xdata = false) →
       has_xdata (clear_xdata j) = false) := by
  constructor
  · simp only [clear_xdata, List.map_map]
    congr 1 <;> apply List.map_congr_left <;> intro a _ <;>
      first
      | (by_cases h : a.temp <;> simp [h])
      | simp
  · intro hx ha hp
    have hxl : (j.xacts.map
        (fun x => if x.temp then x else { x with xdata := false })).any
        (fun x => x.xdata) = false := by
      simp only [List.any_map, List.any_eq_false, Function.comp]
      intro a haMem
      by_cases h : a.temp <;> simp [h, hx a haMem]
    have hal : (j.autoXacts.map
        (fun x => if x.temp then x else { x with xdata := false })).any
        (fun x => x.xdata) = false := by
      simp only [List.any_map, List.any_eq_false, Function.comp]
      intro a haMem
      by_cases h : a.temp <;> simp [h, ha a haMem]
    have hpl : (j.periodXacts.map
        (fun x => if x.temp then x else { x with xdata := false })).any
        (fun x => x.xdata) = false := by
      simp only [List.any_map, List.any_eq_false, Function.comp]
      intro a haMem
      by_cases h : a.temp <;> simp [h, hp a haMem]
    have hacl : (j.accounts.map (fun a => { a with xdata := false })).any
        (fun a => a.xdata) = false := by
      simp only [List.any_map, List.any_eq_false, Function.comp]
      intro a _
      simp
    simp [has_xdata, clear_xdata, hxl, hal, hpl, hacl]

theorem clear_xdata_idem_and_clears_witness :
    (∀ x ∈ journalC7.accounts, x.known = false) ∧
    clear_xdata (clear_xdata journalC7) = clear_xdata journalC7 ∧
    has_xdata (clear_xdata { emptyJournal with xacts := [xact0] }) = false := by
  refine ⟨by intro x hx; simp [journalC7, emptyJournal] at hx, ?_, ?_⟩
  · exact (clear_xdata_idem_and_clears journalC7).1
  · exact (clear_xdata_idem_and_clears { emptyJournal with xacts := [xact0] }).2
      (by intro x hx; simp [emptyJournal] at hx; simp [hx, xact0])
      (by intro x hx; simp [emptyJournal] at hx)
      (by intro x hx; simp [emptyJournal] at hx)

/-- An account with the searched name stays present after
`findAccountCreate`. -/
theorem findAccountCreate_any (accts : List AccountR) (name : String) :
    (findAccountCreate accts name).any (fun a => a.name == name) = true := by
  unfold findAccountCreate
  split
  · rename_i h
    exact h
  · simp

/-- Marking an account known makes `isKnownAccount` true whenever the
account is present. -/
theorem isKnownAccount_markAccountKnown (accts : List AccountR) (name : String)
    (h : accts.any (fun a => a.name == name) = true) :
    isKnownAccount (markAccountKnown accts name) name = true := by
  induction accts with
  | nil => simp at h
  | cons a rest ih =>
    rcases hb : (a.name == name) with _ | _
    · have h' : rest.any (fun x => x.name == name) = true := by
        rcases List.any_eq_true.mp h with ⟨x, hx, hpx⟩
        rcases List.mem_cons.mp hx with rfl | hx'
        · rw [hb] at hpx
          exact absurd hpx (by simp)
        · exact List.any_eq_true.mpr ⟨x, hx', hpx⟩
      have hrec := ih h'
      unfold isKnownAccount getAccount markAccountKnown at hrec ⊢
      rw [List.map_cons, List.find?_cons_of_neg]
      · exact hrec
      · simp [hb]
    · unfold isKnownAccount getAccount markAccountKnown
      rw [List.map_cons, List.find?_cons_of_pos]
      · simp [hb]
      · simp [hb]

/-- C2: under ERROR checking with `force_checking` off and accounts not
fixed, an unknown account observed from an UNCLEARED posting raises the
"Unknown account" parse error, while the same unknown account observed
from a CLEARED or PENDING posting is marked known with no error and no
warning. -/
theorem register_account_checking_error (j : Journal) (name location : String)
    (p : Post)
    (hstyle : j.checkingStyle = .error)
    (hforce : j.forceChecking = false)
    (hfixed : j.fixedAccounts = false)
    (halias : lookupAlias j name = none)
    (hname : name ≠ "Unknown")
    (hunknown : isKnownAccount (findAccountCreate j.accounts name) name = false) :
    (p.state = .uncleared →
      register_account j name (some p) location =
        ({ j with accounts := findAccountCreate j.accounts name }, [],
         .error (.unknownAccount name)))
    ∧ (p.state ≠ .uncleared →
      register_account j name (some p) location =
        ({ j with accounts := markAccountKnown (findAccountCreate j.accounts name) name },
         [], .ok name)
      ∧ isKnownAccount
          (markAccountKnown (findAccountCreate j.accounts name) name) name = true) := by
  have hroute : routeUnknown j.payeesForUnknownAccounts name (some p) = .ok name := by
    unfold routeUnknown
    rw [if_neg (by simpa using hname)]
  constructor
  · intro hst
    simp [register_account, halias, hroute, hunknown, hstyle, hst]
  · intro hst
    refine ⟨?_, isKnownAccount_markAccountKnown _ _ (findAccountCreate_any _ _)⟩
    simp [register_account, halias, hroute, hunknown, hfixed, hst]

theorem register_account_checking_error_witness :
    errJournal.checkingStyle = .error ∧
    register_account errJournal "Assets" (some ⟨.uncleared, [], "py"⟩) "loc" =
      ({ errJournal with
          accounts := findAccountCreate errJournal.accounts "Assets" }, [],
       .error (.unknownAccount "Assets")) ∧
    register_account errJournal "Assets" (some ⟨.cleared, [], "py"⟩) "loc" =
      ({ errJournal with
          accounts := markAccountKnown
            (findAccountCreate errJournal.accounts "Assets") "Assets" }, [],
       .ok "Assets") := by
  refine ⟨rfl, ?_, ?_⟩
  · exact (register_account_checking_error errJournal
      "Assets" "loc" ⟨.uncleared, [], "py"⟩ rfl rfl rfl rfl (by decide) (by decide)).1 rfl
  · exact ((register_account_checking_error errJournal
      "Assets" "loc" ⟨.cleared, [], "py"⟩ rfl rfl rfl rfl (by decide) (by decide)).2
      (by decide)).1

/-- C3: under ERROR checking, a fixed kind suppresses implicit learning —
an unknown account observed from a non-UNCLEARED posting with
`fixed_accounts` set, and an unknown commodity observed from a transaction
or posting of any clearing state with `fixed_commodities` set, both raise
the fatal parse error instead of being marked known. -/
theorem fixed_suppresses_implicit_learning (j : Journal)
    (name location comm : String) (p : Post) (st : ItemState)
    (hstyle : j.checkingStyle = .error) :
    (j.fixedAccounts = true → lookupAlias j name = none → name ≠ "Unknown" →
      isKnownAccount (findAccountCreate j.accounts name) name = false →
      p.state ≠ .uncleared →
      register_account j name (some p) location =
        ({ j with accounts := findAccountCreate j.accounts name }, [],
         .error (.unknownAccount name)))
    ∧ (j.fixedCommodities = true →
      register_commodity j false comm (.inXact st) location =
        (j, false, [], some (.unknownCommodity comm))
      ∧ register_commodity j false comm (.inPost st) location =
        (j, false, [], some (.unknownCommodity comm))) := by
  constructor
  · intro hfixed halias hname hunknown hst
    have hroute : routeUnknown j.payeesForUnknownAccounts name (some p) = .ok name := by
      unfold routeUnknown
      rw [if_neg (by simpa using hname)]
    simp [register_account, halias, hroute, hunknown, hstyle, hfixed]
  · intro hfixed
    constructor <;> simp [register_commodity, hfixed, hstyle]

theorem fixed_suppresses_implicit_learning_witness :
    fixedJournal.checkingStyle = .error ∧ fixedJournal.fixedAccounts = true ∧
    fixedJournal.fixedCommodities = true ∧
    register_account fixedJournal "Assets" (some ⟨.cleared, [], "py"⟩) "loc" =
      ({ fixedJournal with
          accounts := findAccountCreate fixedJournal.accounts "Assets" }, [],
       .error (.unknownAccount "Assets")) ∧
    register_commodity fixedJournal false "EUR" (.inXact .cleared) "loc" =
      (fixedJournal, false, [], some (.unknownCommodity "EUR")) := by
  refine ⟨rfl, rfl, rfl, ?_, ?_⟩
  · exact (fixed_suppresses_implicit_learning fixedJournal
      "Assets" "loc" "EUR" ⟨.cleared, [], "py"⟩ .cleared rfl).1
      rfl rfl (by decide) (by decide) (by decide)
  · exact ((fixed_suppresses_implicit_learning fixedJournal
      "Assets" "loc" "EUR" ⟨.cleared, [], "py"⟩ .cleared rfl).2 rfl).1

/-- The warnings emitted for the failed WARNING checks of a check list, in
list order. -/
def failWarns (location key : String) (value : Value) (cs : List Check) : List Warn :=
  (cs.filter (fun c => ! c.eval value)).map
    (fun c => Warn.metadataCheck location key value c.src)

/-- Running the checks stops at the first failing ASSERTION, after emitting
the warnings of every earlier failing WARNING check. -/
theorem runChecks_first_assertion (pre : List Check) (c : Check)
    (post : List Check) (key : String) (value : Value) (location : String)
    (hpre : ∀ a ∈ pre, a.eval value = false → a.kind = .warning)
    (hc : c.eval value = false) (hk : c.kind = .assertion) :
    runChecks (pre ++ c :: post) key value location =
      (failWarns location key value pre,
       some (.metadataAssertion key value c.src)) := by
  induction pre with
  | nil => simp [runChecks, hc, hk, failWarns]
  | cons a rest ih =>
    have hrest : ∀ b ∈ rest, b.eval value = false → b.kind = .warning :=
      fun b hb => hpre b (List.mem_cons_of_mem _ hb)
    have ihh := ih hrest
    rcases he : a.eval value with _ | _
    · have hw : a.kind = .warning := hpre a (List.mem_cons_self _ _) he
      simp [runChecks, he, hw, ihh, failWarns]
    · simp [runChecks, he, ihh, failWarns]

/-- When every failing check is a WARNING, running the checks emits one
warning per failure, in order, and throws nothing. -/
theorem runChecks_all_warnings (cs : List Check) (key : String)
    (value : Value) (location : String)
    (h : ∀ a ∈ cs, a.eval value = false → a.kind = .warning) :
    runChecks cs key value location = (failWarns location key value cs, none) := by
  induction cs with
  | nil => simp [runChecks, failWarns]
  | cons a rest ih =>
    have hrest : ∀ b ∈ rest, b.eval value = false → b.kind = .warning :=
      fun b hb => h b (List.mem_cons_of_mem _ hb)
    have ihh := ih hrest
    rcases he : a.eval value with _ | _
    · have hw : a.kind = .warning := h a (List.mem_cons_self _ _) he
      simp [runChecks, he, hw, ihh, failWarns]
    · simp [runChecks, he, ihh, failWarns]

/-- C4: for a `register_metadata` call with a non-null value on a known
tag in a transaction/posting context, the checks registered for the key
run in insertion order: the first failing ASSERTION aborts ingestion with
a parse error citing key, value and predicate source (after the warnings
of the earlier failing WARNING checks); when every failing check is a
WARNING, one warning per failure is emitted, no short-circuit, and no
error is raised. -/
theorem register_metadata_check_outcomes (j : Journal) (key s location : String)
    (context : Context)
    (hknown : key ∈ j.knownTags) (hctx : context ≠ .declaration) :
    (∀ pre c post, checksFor j key = pre ++ c :: post →
      (∀ a ∈ pre, a.eval (some s) = false → a.kind = .warning) →
      c.eval (some s) = false → c.kind = .assertion →
      register_metadata j key (some s) context location =
        (j, failWarns location key (some s) pre,
         some (.metadataAssertion key (some s) c.src)))
    ∧ ((∀ a ∈ checksFor j key, a.eval (some s) = false → a.kind = .warning) →
      register_metadata j key (some s) context location =
        (j, failWarns location key (some s) (checksFor j key), none)) := by
  have hstep : register_metadata_step j key context location = (j, [], none) := by
    unfold register_metadata_step
    rw [if_pos hknown]
  have hcm : check_metadata j key (some s) context location =
      runChecks (checksFor j key) key (some s) location := by
    cases context with
    | declaration => exact absurd rfl hctx
    | inXact st => rfl
    | inPost st => rfl
  constructor
  · intro pre c post hsplit hpre hc hk
    have hrun := runChecks_first_assertion pre c post key (some s) location hpre hc hk
    unfold register_metadata
    rw [hstep]
    simp [hcm, hsplit, hrun]
  · intro hall
    have hrun := runChecks_all_warnings (checksFor j key) key (some s) location hall
    unfold register_metadata
    rw [hstep]
    simp [hcm, hrun]

/-- A failing WARNING check followed by a failing ASSERTION check. -/
def warnCheck : Check := ⟨fun _ => false, .warning, "w-src"⟩

/-- A failing ASSERTION check. -/
def assertCheck : Check := ⟨fun _ => false, .assertion, "a-src"⟩

/-- A journal knowing tag "K" with the two checks above registered for it. -/
def checkJournal : Journal :=
  { emptyJournal with
    knownTags := ["K"],
    tagCheckExprs := [("K", warnCheck), ("K", assertCheck)] }

theorem register_metadata_check_outcomes_witness :
    "K" ∈ checkJournal.knownTags ∧
    checksFor checkJournal "K" = [warnCheck] ++ assertCheck :: [] ∧
    register_metadata checkJournal "K" (some "v") (.inXact .cleared) "loc" =
      (checkJournal, failWarns "loc" "K" (some "v") [warnCheck],
       some (.metadataAssertion "K" (some "v") "a-src")) := by
  refine ⟨by simp [checkJournal, emptyJournal], rfl, ?_⟩
  exact (register_metadata_check_outcomes checkJournal "K" "v" "loc"
      (.inXact .cleared) (by simp [checkJournal, emptyJournal]) (by simp)).1
    [warnCheck] assertCheck [] rfl
    (by intro a ha; simp at ha; simp [ha, warnCheck])
    rfl rfl

/-- The known-tag step can only touch `known_tags` and `fixed_metadata`;
every other journal field is preserved. -/
theorem register_metadata_step_shape (j : Journal) (key : String)
    (context : Context) (location : String) :
    ∃ kt fm, (register_metadata_step j key context location).1 =
      { j with knownTags := kt, fixedMetadata := fm } := by
  unfold register_metadata_step
  repeat' split
  all_goals exact ⟨_, _, rfl⟩

/-- `register_metadata` can only touch `known_tags` and `fixed_metadata`. -/
theorem register_metadata_shape (j : Journal) (key : String) (value : Value)
    (context : Context) (location : String) :
    ∃ kt fm, (register_metadata j key value context location).1 =
      { j with knownTags := kt, fixedMetadata := fm } := by
  obtain ⟨kt, fm, hs⟩ := register_metadata_step_shape j key context location
  unfold register_metadata
  rcases hh : register_metadata_step j key context location with ⟨j1, w1, e1⟩
  rw [hh] at hs
  cases e1 with
  | some e => exact ⟨kt, fm, hs⟩
  | none =>
    refine ⟨kt, fm, ?_⟩
    show (if (value.isSome : Bool) = true then _ else _ : Journal × List Warn × Option Err).1 = _
    split <;> exact hs

/-- The `check_all_metadata` loop can only touch `known_tags` and
`fixed_metadata`. -/
theorem registerAllPairs_shape (pairs : List (String × Value)) :
    ∀ (j : Journal) (context : Context),
    ∃ kt fm, (registerAllPairs j pairs context).1 =
      { j with knownTags := kt, fixedMetadata := fm } := by
  induction pairs with
  | nil =>
    intro j context
    exact ⟨j.knownTags, j.fixedMetadata, rfl⟩
  | cons kv rest ih =>
    intro j context
    obtain ⟨k, v⟩ := kv
    obtain ⟨kt1, fm1, h1⟩ := register_metadata_shape j k v context ""
    unfold registerAllPairs
    rcases hh : register_metadata j k v context "" with ⟨j1, w1, e1⟩
    rw [hh] at h1
    cases e1 with
    | some e => exact ⟨kt1, fm1, h1⟩
    | none =>
      obtain ⟨kt2, fm2, h2⟩ := ih j1 context
      have h1e : j1 = { j with knownTags := kt1, fixedMetadata := fm1 } := h1
      refine ⟨kt2, fm2, h2.trans ?_⟩
      rw [h1e]

/-- The posting loop of the metadata phase can only touch `known_tags` and
`fixed_metadata`. -/
theorem check_posts_metadata_shape (ps : List Post) :
    ∀ j : Journal,
    ∃ kt fm, (check_posts_metadata j ps).1 =
      { j with knownTags := kt, fixedMetadata := fm } := by
  induction ps with
  | nil =>
    intro j
    exact ⟨j.knownTags, j.fixedMetadata, rfl⟩
  | cons p rest ih =>
    intro j
    obtain ⟨kt1, fm1, h1⟩ := registerAllPairs_shape p.metadata j (.inPost p.state)
    unfold check_posts_metadata check_all_metadata_post
    rcases hh : registerAllPairs j p.metadata (.inPost p.state) with ⟨j1, w1, e1⟩
    rw [hh] at h1
    cases e1 with
    | some e => exact ⟨kt1, fm1, h1⟩
    | none =>
      obtain ⟨kt2, fm2, h2⟩ := ih j1
      have h1e : j1 = { j with knownTags := kt1, fixedMetadata := fm1 } := h1
      refine ⟨kt2, fm2, h2.trans ?_⟩
      rw [h1e]

/-- The whole metadata-validation phase of `add_xact` can only touch
`known_tags` and `fixed_metadata`: the transaction list, checksum
registry, automated transactions and account tree are preserved. -/
theorem metadataPhase_shape (j : Journal) (c : XCore) :
    ∃ kt fm, (metadataPhase j c).1 =
      { j with knownTags := kt, fixedMetadata := fm } := by
  obtain ⟨kt1, fm1, h1⟩ := registerAllPairs_shape c.metadata j (.inXact c.state)
  unfold metadataPhase check_all_metadata_xact
  rcases hh : registerAllPairs j c.metadata (.inXact c.state) with ⟨j1, w1, e1⟩
  rw [hh] at h1
  cases e1 with
  | some e => exact ⟨kt1, fm1, h1⟩
  | none =>
    obtain ⟨kt2, fm2, h2⟩ := check_posts_metadata_shape c.posts j1
    have h1e : j1 = { j with knownTags := kt1, fixedMetadata := fm1 } := h1
    refine ⟨kt2, fm2, h2.trans ?_⟩
    rw [h1e]

/-- A non-none checksum lookup means some entry's key matches. -/
theorem checksumLookup_ne_none_any (m : List (String × Nat)) (u : String)
    (h : checksumLookup m u ≠ none) : m.any (fun p => p.1 == u) = true := by
  rcases hf : m.find? (fun p => p.1 == u) with _ | p
  · exact absurd (by simp [checksumLookup, hf]) h
  · have hp := List.find?_some hf
    have hm := List.mem_of_find?_eq_some hf
    exact List.any_eq_true.mpr ⟨p, hm, hp⟩

/-- C10: rejection for a duplicate UUID is not atomic: when `add_xact`
hits the checksum collision, the returned journal is exactly the one the
extension and metadata-validation steps produced (their knowledge-set
growth persists), the rejected transaction carries its extended payload
with the back-reference cleared, and only the transaction list and the
checksum registry are unchanged from the pre-call state. -/
theorem add_xact_duplicate_uuid_frame (finalizeFn : XCore → Option XCore)
    (j j2 : Journal) (x : Xact) (u : String) (c1 : XCore) (w : List Warn)
    (hfin : finalizeFn x.core = some c1)
    (hmeta : metadataPhase j (extend_xact j c1) = (j2, w, none))
    (hu : getTag (extend_xact j c1) "UUID" = some u)
    (hdup : checksumLookup j.checksumMap u ≠ none) :
    add_xact finalizeFn j x =
      (j2, { x with journal := false, core := extend_xact j c1 }, w, .ok false)
    ∧ j2.xacts = j.xacts ∧ j2.checksumMap = j.checksumMap := by
  obtain ⟨kt, fm, hshape⟩ := metadataPhase_shape j (extend_xact j c1)
  rw [hmeta] at hshape
  have hcs : j2.checksumMap = j.checksumMap := by rw [show j2 = (j2, w, (none : Option Err)).1 from rfl, hshape]
  have hxs : j2.xacts = j.xacts := by rw [show j2 = (j2, w, (none : Option Err)).1 from rfl, hshape]
  have hany : j2.checksumMap.any (fun p => p.1 == u) = true := by
    rw [hcs]
    exact checksumLookup_ne_none_any _ _ hdup
  refine ⟨?_, hxs, hcs⟩
  unfold add_xact
  rw [hfin]
  simp only [hmeta, hu, checksumInsert, hany]
  rfl

theorem add_xact_duplicate_uuid_frame_witness :
    (fun c : XCore => some c) uuidXact.core = some uuidXact.core ∧
    metadataPhase dupJournal (extend_xact dupJournal uuidXact.core) =
      (dupJournal, [], none) ∧
    getTag (extend_xact dupJournal uuidXact.core) "UUID" = some "u1" ∧
    checksumLookup dupJournal.checksumMap "u1" = some 5 ∧
    add_xact (fun c => some c) dupJournal uuidXact =
      (dupJournal,
       { uuidXact with journal := false, core := extend_xact dupJournal uuidXact.core },
       [], .ok false) := by
  refine ⟨rfl, rfl, rfl, rfl, ?_⟩
  exact (add_xact_duplicate_uuid_frame (fun c => some c)
      dupJournal dupJournal uuidXact "u1" uuidXact.core [] rfl rfl rfl
      (by simp [dupJournal, emptyJournal, checksumLookup])).1

/-- C1: two transactions X then Y submitted to `add_xact` with the same
non-empty UUID value: X is committed — appended to the transaction list
with the checksum registry mapping the UUID to X — while Y is rejected
with return value `false`, Y's journal back-reference cleared, Y absent
from the transaction list, and the registry still mapping the UUID to X. -/
theorem add_xact_uuid_dedup (finalizeFn : XCore → Option XCore)
    (j jX jX' jY : Journal) (X Y : Xact) (u : String) (cX1 cY1 : XCore)
    (wX wY : List Warn)
    (hfinX : finalizeFn X.core = some cX1)
    (hXu : getTag (extend_xact j cX1) "UUID" = some u)
    (hu : u ≠ "")
    (hXmeta : metadataPhase j (extend_xact j cX1) = (jX, wX, none))
    (hXfree : checksumLookup j.checksumMap u = none)
    (hjX' : jX' = { jX with
        checksumMap := jX.checksumMap ++ [(u, X.id)],
        xacts := jX.xacts ++ [{ X with journal := true, core := extend_xact j cX1 }] })
    (hfinY : finalizeFn Y.core = some cY1)
    (hYu : getTag (extend_xact jX' cY1) "UUID" = some u)
    (hYmeta : metadataPhase jX' (extend_xact jX' cY1) = (jY, wY, none))
    (hfresh : ∀ e ∈ j.xacts, e.id ≠ Y.id)
    (hXY : X.id ≠ Y.id) :
    add_xact finalizeFn j X =
      (jX', { X with journal := true, core := extend_xact j cX1 }, wX, .ok true)
    ∧ checksumLookup jX'.checksumMap u = some X.id
    ∧ (∃ e ∈ jX'.xacts, e.id = X.id)
    ∧ add_xact finalizeFn jX' Y =
      (jY, { Y with journal := false, core := extend_xact jX' cY1 }, wY, .ok false)
    ∧ (∀ e ∈ jY.xacts, e.id ≠ Y.id)
    ∧ checksumLookup jY.checksumMap u = some X.id := by
  obtain ⟨ktX, fmX, hsX⟩ := metadataPhase_shape j (extend_xact j cX1)
  rw [hXmeta] at hsX
  have hsXe : jX = { j with knownTags := ktX, fixedMetadata := fmX } := hsX
  have hXcs : jX.checksumMap = j.checksumMap := by rw [hsXe]
  have hXxs : jX.xacts = j.xacts := by rw [hsXe]
  obtain ⟨ktY, fmY, hsY⟩ := metadataPhase_shape jX' (extend_xact jX' cY1)
  rw [hYmeta] at hsY
  have hsYe : jY = { jX' with knownTags := ktY, fixedMetadata := fmY } := hsY
  have hYcs : jY.checksumMap = jX'.checksumMap := by rw [hsYe]
  have hYxs : jY.xacts = jX'.xacts := by rw [hsYe]
  have hfindj : j.checksumMap.find? (fun p => p.1 == u) = none := by
    rcases hf : j.checksumMap.find? (fun p => p.1 == u) with _ | p
    · exact hf
    · rw [checksumLookup, hf] at hXfree
      simp at hXfree
  have hanyj : j.checksumMap.any (fun p => p.1 == u) = false := by
    simp only [List.any_eq_false]
    intro p hp hpu
    exact (List.find?_eq_none.mp hfindj p hp) hpu
  have hXadd : add_xact finalizeFn j X =
      (jX', { X with journal := true, core := extend_xact j cX1 }, wX, .ok true) := by
    unfold add_xact
    rw [hfinX]
    have hins : checksumInsert jX.checksumMap u X.id =
        (jX.checksumMap ++ [(u, X.id)], true) := by
      unfold checksumInsert
      rw [hXcs, hanyj]
      simp
    simp only [hXmeta, hXu, hins]
    rw [hjX']
    simp
  have hlookX : checksumLookup jX'.checksumMap u = some X.id := by
    rw [hjX']
    show checksumLookup (jX.checksumMap ++ [(u, X.id)]) u = some X.id
    unfold checksumLookup
    rw [List.find?_append, hXcs, hfindj]
    simp
  have hmemX : ∃ e ∈ jX'.xacts, e.id = X.id := by
    rw [hjX']
    refine ⟨{ X with journal := true, core := extend_xact j cX1 }, ?_, rfl⟩
    show _ ∈ jX.xacts ++ _
    simp
  have hanyX' : jX'.checksumMap.any (fun p => p.1 == u) = true := by
    rw [hjX']
    show (jX.checksumMap ++ [(u, X.id)]).any (fun p => p.1 == u) = true
    simp [List.any_append]
  have hYadd : add_xact finalizeFn jX' Y =
      (jY, { Y with journal := false, core := extend_xact jX' cY1 }, wY, .ok false) := by
    unfold add_xact
    rw [hfinY]
    have hins : checksumInsert jY.checksumMap u Y.id = (jY.checksumMap, false) := by
      unfold checksumInsert
      rw [hYcs, hanyX']
      simp
    simp only [hYmeta, hYu, hins]
    simp
  have hYnot : ∀ e ∈ jY.xacts, e.id ≠ Y.id := by
    have hx : jY.xacts =
        j.xacts ++ [{ X with journal := true, core := extend_xact j cX1 }] := by
      rw [hYxs, hjX']
      show jX.xacts ++ _ = _
      rw [hXxs]
    rw [hx]
    intro e he
    rcases List.mem_append.mp he with h | h
    · exact hfresh e h
    · have he2 : e = { X with journal := true, core := extend_xact j cX1 } := by
        simpa using h
      rw [he2]
      exact hXY
  have hlookY : checksumLookup jY.checksumMap u = some X.id := by
    rw [hYcs]
    exact hlookX
  exact ⟨hXadd, hlookX, hmemX, hYadd, hYnot, hlookY⟩

/-- A second transaction carrying the same "UUID" value "u1". -/
def yXact : Xact :=
  ⟨4, false, false, false, ⟨"pay2", .uncleared, [("UUID", some "u1")], []⟩⟩

/-- The journal after committing `uuidXact` into `emptyJournal`. -/
def committedJournal : Journal :=
  { emptyJournal with
    checksumMap := [("u1", uuidXact.id)],
    xacts := [{ uuidXact with journal := true }] }

theorem add_xact_uuid_dedup_witness :
    getTag uuidXact.core "UUID" = some "u1" ∧
    getTag yXact.core "UUID" = some "u1" ∧
    uuidXact.id ≠ yXact.id ∧
    add_xact (fun c => some c) emptyJournal uuidXact =
      (committedJournal,
       { uuidXact with
         journal := true
         core := extend_xact emptyJournal uuidXact.core }, [], .ok true) ∧
    add_xact (fun c => some c) committedJournal yXact =
      (committedJournal,
       { yXact with
         journal := false
         core := extend_xact committedJournal yXact.core }, [], .ok false) ∧
    checksumLookup committedJournal.checksumMap "u1" = some uuidXact.id := by
  have h := add_xact_uuid_dedup (fun c => some c) emptyJournal emptyJournal
    committedJournal committedJournal uuidXact yXact "u1" uuidXact.core
    yXact.core [] [] rfl rfl (by decide) rfl rfl rfl rfl rfl rfl
    (by intro e he; exact absurd he (by simp [emptyJournal])) (by decide)
  exact ⟨rfl, rfl, by decide, h.1, h.2.2.2.1, h.2.1⟩

end LedgerJournal
